import Mathlib

/-!
Verification of the captcha-solving pipeline of `src/lechatphp/captcha.rs`.

The Rust source is shallowly embedded: grayscale images become a structure
holding the dimensions and a pixel-intensity function, the pixel loops become
folds over the same index ranges the source iterates, and the process-wide
cache together with the persisted cache file becomes an explicit state record
threaded through `solve_b64`.  `f32` arithmetic of the clarity metric and of
the fallback-heuristic ratios is idealized as exact rational arithmetic; the
image-decoding / recognition stage that `solve_b64` runs on a cache miss is
abstracted as an oracle parameter wherever a claim quantifies over its
outcome.  File-system effects (the persisted cache, the template directory)
are modelled as explicit optional contents; best-effort debug/training writes,
which never influence results, are dropped.
-/

/-- A grayscale image (`image::GrayImage`): width, height, and the intensity
(0–255) at each in-bounds coordinate pair. -/
structure GrayImage where
  width : Nat
  height : Nat
  pixel : Nat → Nat → Nat

/-- Model of `ImageBuffer::put_pixel`: overwrite the intensity at one coordinate. -/
def put_pixel (img : GrayImage) (x y v : Nat) : GrayImage :=
  { img with pixel := fun a b => if a = x ∧ b = y then v else img.pixel a b }

/-- Model of `imageops::rotate90`: quarter-turn clockwise; dimensions swap. -/
def rotate90 (img : GrayImage) : GrayImage :=
  ⟨img.height, img.width, fun x y => img.pixel y (img.height - 1 - x)⟩

/-- Model of `imageops::crop_imm(img, x0, y0, w, h).to_image()`: a w×h view whose
pixel (x, y) is the source pixel (x0+x, y0+y). -/
def crop_imm (img : GrayImage) (x0 y0 w h : Nat) : GrayImage :=
  ⟨w, h, fun x y => img.pixel (x0 + x) (y0 + y)⟩

/-- The fixed candidate angle list of `preprocess_specific_captcha`
(captcha.rs line 94). -/
def angles : List Int := [-20, -15, -10, -5, 0, 5, 10, 15, 20]

/-- Model of `evaluate_captcha_clarity` (captcha.rs lines 117–138): variance of the
intensity histogram.  The source computes in `f32`; here the same sums are
taken over exact rationals. -/
def evaluate_captcha_clarity (img : GrayImage) : ℚ :=
  let positions :=
    (List.range img.height).flatMap (fun y =>
      (List.range img.width).map (fun x => (x, y)))
  let hist : Nat → Nat := fun i => positions.countP (fun p => img.pixel p.1 p.2 = i)
  let total : ℚ := ((img.width * img.height : Nat) : ℚ)
  let mean : ℚ := ((List.range 256).map (fun (i : Nat) => (i : ℚ) * (hist i : ℚ) / total)).sum
  ((List.range 256).map (fun (i : Nat) => ((i : ℚ) - mean) ^ 2 * (hist i : ℚ) / total)).sum

/-- The rotation-correction step of `preprocess_specific_captcha`
(captcha.rs lines 91–101): starting from the resized image, iterate over the
candidate angle list, render a candidate (`imageops::rotate90(&sized)` — the
loop variable `_angle` is not used by the source), score it, and keep the
best-scoring image seen. -/
def preprocess_rotation (sized : GrayImage) : GrayImage :=
  let best := (sized, evaluate_captcha_clarity sized)
  let final := angles.foldl (fun b _angle =>
    let rotated := rotate90 sized
    let score := evaluate_captcha_clarity rotated
    if b.2 < score then (rotated, score) else b) best
  final.1

/-- The neighbour-offset traversal order of `remove_noise` (captcha.rs lines
151–155): `dy` in the outer loop, `dx` in the inner loop. -/
def neighbor_offsets : List (Int × Int) :=
  ([-1, 0, 1] : List Int).flatMap (fun dy =>
    ([-1, 0, 1] : List Int).map (fun dx => (dy, dx)))

/-- One step of the neighbour count of `remove_noise` (captcha.rs lines
151–168): skip the centre offset, bounds-check the neighbour, and count it
when it lies on the same side of the 127 mid-level split as the centre
pixel.  All reads go to the unmodified input image. -/
def noise_neighbor_step (img : GrayImage) (x y : Nat) (n : Nat) (d : Int × Int) : Nat :=
  let (dy, dx) := d
  if dx = 0 ∧ dy = 0 then n
  else
    let nx : Int := (x : Int) + dx
    let ny : Int := (y : Int) + dy
    if 0 ≤ nx ∧ nx < (img.width : Int) ∧ 0 ≤ ny ∧ ny < (img.height : Int) then
      let neighbor_val := img.pixel nx.toNat ny.toNat
      if (127 < neighbor_val ↔ 127 < img.pixel x y) then n + 1 else n
    else n

/-- The same-polarity neighbour count of a pixel (captcha.rs lines 148–168). -/
def same_neighbors (img : GrayImage) (x y : Nat) : Nat :=
  neighbor_offsets.foldl (noise_neighbor_step img x y) 0

/-- The interior pixel positions visited by `remove_noise` (captcha.rs lines
145–146): `y` in `1..height-1` outside, `x` in `1..width-1` inside. -/
def interior_positions (img : GrayImage) : List (Nat × Nat) :=
  (List.range' 1 (img.height - 1 - 1)).flatMap (fun y =>
    (List.range' 1 (img.width - 1 - 1)).map (fun x => (x, y)))

/-- Model of `remove_noise` (captcha.rs lines 141–179): clone the input, then for each
interior pixel count the same-polarity 8-neighbours in the *input* image and,
when fewer than 2 match, invert that pixel of the output. -/
def remove_noise (img : GrayImage) : GrayImage :=
  (interior_positions img).foldl (fun output p =>
    let (x, y) := p
    if same_neighbors img x y < 2 then
      put_pixel output x y (255 - img.pixel x y)
    else output) img

/-- The per-pixel decision `remove_noise` makes, phrased pointwise: an
interior pixel with fewer than 2 same-polarity neighbours (counted in the
unmodified input) is inverted, every other pixel is copied. -/
def noise_decision (img : GrayImage) (x y : Nat) : Nat :=
  if (1 ≤ x ∧ x < img.width - 1 ∧ 1 ≤ y ∧ y < img.height - 1) ∧
      same_neighbors img x y < 2 then
    255 - img.pixel x y
  else img.pixel x y

/-- All in-bounds pixels on one side of the mid-level split: all strictly
above 127, or all at most 127. -/
def UniformPolarity (img : GrayImage) : Prop :=
  (∀ x < img.width, ∀ y < img.height, 127 < img.pixel x y) ∨
  (∀ x < img.width, ∀ y < img.height, img.pixel x y ≤ 127)

/-- The vertical projection of `detect_captcha_text` (captcha.rs lines
189–198): per column, the number of rows whose pixel is darker than 128. -/
def v_projection (img : GrayImage) (x : Nat) : Nat :=
  (List.range img.height).countP (fun y => img.pixel x y < 128)

/-- One column step of the boundary scan of `detect_captcha_text`
(captcha.rs lines 205–215), over the state (boundaries, in_char, start). -/
def boundary_step (img : GrayImage) (st : List (Nat × Nat) × Bool × Nat) (x : Nat) :
    List (Nat × Nat) × Bool × Nat :=
  let (bs, in_char, start) := st
  if 3 < v_projection img x ∧ in_char = false then (bs, true, x)
  else if (v_projection img x ≤ 3 ∨ x = img.width - 1) ∧ in_char = true then
    (if 3 ≤ x - start then bs ++ [(start, x)] else bs, false, start)
  else st

/-- The raw character boundaries of `detect_captcha_text` (captcha.rs lines
200–215). -/
def find_char_boundaries (img : GrayImage) : List (Nat × Nat) :=
  ((List.range img.width).foldl (boundary_step img) ([], false, 0)).1

/-- The merge pass of `detect_captcha_text` (captcha.rs lines 222–243):
boundaries separated by a gap of at most 3 columns are fused; the pending
(current_start, current_end) pair is appended at the end when the input list
was non-empty. -/
def merge_boundaries (bs : List (Nat × Nat)) : List (Nat × Nat) :=
  let r := bs.enum.foldl (fun (st : List (Nat × Nat) × Nat × Nat) ib =>
    let (merged, current_start, current_end) := st
    let (i, (s, e)) := ib
    if i = 0 then (merged, s, e)
    else if s - current_end ≤ 3 then (merged, current_start, e)
    else (merged ++ [(current_start, current_end)], s, e)) ([], 0, 0)
  if bs.isEmpty then r.1 else r.1 ++ [(r.2.1, r.2.2)]

/-- The recognition pass of `detect_captcha_text` (captcha.rs lines 246–261):
crop each merged region at full height, ask the character recognizer, and push
its answer, or the placeholder on recognition failure.  The recognizer
(`identify_character`, whose template matching is `f32`- and disk-dependent)
is an oracle parameter. -/
def recognize_regions (identify : GrayImage → Option Char)
    (img : GrayImage) (merged : List (Nat × Nat)) : List Char :=
  merged.foldl (fun result b =>
    let (s, e) := b
    let char_width := e - s
    let char_img := crop_imm img s 0 char_width img.height
    match identify char_img with
    | some c => result ++ [c]
    | none => result ++ ['?']) []

/-- Model of `char::is_ascii_alphanumeric`, by code point. -/
def is_ascii_alphanumeric (c : Char) : Bool :=
  (48 ≤ c.toNat && c.toNat ≤ 57) ||
  (65 ≤ c.toNat && c.toNat ≤ 90) ||
  (97 ≤ c.toNat && c.toNat ≤ 122)

/-- The final validity check of `detect_captcha_text` (captcha.rs line 264):
at least 3 characters, each ASCII alphanumeric or the placeholder.  (The
source compares the byte length; it can differ from the character count only
when some character is non-ASCII, and then the alphabet check fails as well,
so the accepted texts coincide.) -/
def isValidText (cs : List Char) : Bool :=
  3 ≤ cs.length && cs.all (fun c => is_ascii_alphanumeric c || c = '?')

/-- Model of `detect_captcha_text` (captcha.rs lines 182–269): segment by vertical
projection, reject an implausible boundary count, merge close boundaries,
recognize each region, and validate the assembled text. -/
def detect_captcha_text (identify : GrayImage → Option Char)
    (img : GrayImage) : Option (List Char) :=
  let char_boundaries := find_char_boundaries img
  if char_boundaries.length < 3 ∨ 8 < char_boundaries.length then none
  else
    let merged := merge_boundaries char_boundaries
    let result := recognize_regions identify img merged
    if isValidText result then some result else none

/-- The post-gate tail of `detect_captcha_text`: merging, recognition and
final validation, as run once the boundary count was accepted. -/
def merge_and_recognize (identify : GrayImage → Option Char)
    (img : GrayImage) : Option (List Char) :=
  let merged := merge_boundaries (find_char_boundaries img)
  let result := recognize_regions identify img merged
  if isValidText result then some result else none

/-- The five region counters of `estimate_character_by_position`. -/
structure RegionCounts where
  top : Nat
  middle : Nat
  bottom : Nat
  left : Nat
  right : Nat
deriving DecidableEq

/-- One pixel step of the counting loop of `estimate_character_by_position`
(captcha.rs lines 313–332): a dark pixel is attributed to its vertical third
and to its horizontal half. -/
def count_step (img : GrayImage) (y : Nat) (acc : RegionCounts) (x : Nat) : RegionCounts :=
  if img.pixel x y < 128 then
    let acc1 :=
      if y < img.height / 3 then { acc with top := acc.top + 1 }
      else if y < 2 * img.height / 3 then { acc with middle := acc.middle + 1 }
      else { acc with bottom := acc.bottom + 1 }
    if x < img.width / 2 then { acc1 with left := acc1.left + 1 }
    else { acc1 with right := acc1.right + 1 }
  else acc

/-- The region counters of `estimate_character_by_position` over the whole
image (captcha.rs lines 307–332). -/
def region_counts (img : GrayImage) : RegionCounts :=
  (List.range img.height).foldl (fun acc y =>
    (List.range img.width).foldl (count_step img y) acc)
    { top := 0, middle := 0, bottom := 0, left := 0, right := 0 }

/-- Model of `estimate_character_by_position` (captcha.rs lines 300–360): with no dark
pixel at all, no answer; otherwise the ordered distribution rules over the
thirds/halves ratios, ending in the default character.  The `f32` ratio
comparisons are idealized as exact rational comparisons. -/
def estimate_character_by_position (img : GrayImage) : Option Char :=
  let c := region_counts img
  let total := c.top + c.middle + c.bottom
  if total = 0 then none
  else
    let top_ratio : ℚ := (c.top : ℚ) / (total : ℚ)
    let middle_ratio : ℚ := (c.middle : ℚ) / (total : ℚ)
    let bottom_ratio : ℚ := (c.bottom : ℚ) / (total : ℚ)
    let left_ratio : ℚ := (c.left : ℚ) / ((c.left : ℚ) + (c.right : ℚ))
    if 0.4 < top_ratio ∧ 0.4 < bottom_ratio ∧ middle_ratio < 0.2 then some '8'
    else if 0.4 < top_ratio ∧ 0.3 < middle_ratio then some 'E'
    else if 0.7 < left_ratio then some 'C'
    else if top_ratio < 0.2 ∧ 0.5 < bottom_ratio then some 'J'
    else if 0.5 < middle_ratio then some 'H'
    else some 'A'

/-- Association-list insert with `HashMap::insert` semantics: replace the
value at an existing key, append a fresh key at the end. -/
def assocInsert {α β : Type} [DecidableEq α] (l : List (α × β)) (k : α) (v : β) :
    List (α × β) :=
  if (l.lookup k).isSome then l.map (fun p => if p.1 = k then (k, v) else p)
  else l ++ [(k, v)]

/-- Model of `GrayImage::new(20, 30)`: the zero-filled blank template (captcha.rs line
422). -/
def blank_template : GrayImage := ⟨20, 30, fun _ _ => 0⟩

/-- The fallback character list of `load_templates` (captcha.rs line 421). -/
def alnum_chars : List Char :=
  "0123456789ABCDEFGHIJKLMNOPQRSTUVWXYZabcdefghijklmnopqrstuvwxyz".toList

/-- Model of `load_templates` (captcha.rs lines 388–428).  The file system is passed
in explicitly: `none` models an absent template directory (which the source
then creates empty), `some entries` models a directory of decoded `.png`
files as (file-stem, image) pairs.  A single-character stem becomes a
template; if nothing was loaded, every alphanumeric character is mapped to
the blank template. -/
def load_templates (dirContents : Option (List (String × GrayImage))) :
    List (Char × GrayImage) :=
  let templates : List (Char × GrayImage) :=
    match dirContents with
    | some entries =>
      entries.foldl (fun ts entry =>
        let (stem, im) := entry
        match stem.toList with
        | [c] => assocInsert ts c im
        | _ => ts) []
    | none => []
  if templates.isEmpty then
    alnum_chars.foldl (fun ts c => assocInsert ts c blank_template) templates
  else templates

/-- Little-endian word value of a byte list. -/
def le64 (bytes : List Nat) : Nat := bytes.foldr (fun b acc => b + 256 * acc) 0

/-- Rotate a 64-bit word left by `r` (for `0 < r < 64` and `x < 2^64`). -/
def rotl64 (x r : Nat) : Nat := (x * 2 ^ r) % 2 ^ 64 + x / 2 ^ (64 - r)

/-- One SipHash round over the four-word state. -/
def sipRound (v : Nat × Nat × Nat × Nat) : Nat × Nat × Nat × Nat :=
  let (v0, v1, v2, v3) := v
  let v0 := (v0 + v1) % 2 ^ 64
  let v1 := rotl64 v1 13
  let v1 := Nat.xor v1 v0
  let v0 := rotl64 v0 32
  let v2 := (v2 + v3) % 2 ^ 64
  let v3 := rotl64 v3 16
  let v3 := Nat.xor v3 v2
  let v0 := (v0 + v3) % 2 ^ 64
  let v3 := rotl64 v3 21
  let v3 := Nat.xor v3 v0
  let v2 := (v2 + v1) % 2 ^ 64
  let v1 := rotl64 v1 17
  let v1 := Nat.xor v1 v2
  let v2 := rotl64 v2 32
  (v0, v1, v2, v3)

/-- Compression of one message word (SipHash-1-3: a single round). -/
def sipCompress (v : Nat × Nat × Nat × Nat) (m : Nat) : Nat × Nat × Nat × Nat :=
  let (v0, v1, v2, v3) := v
  let (w0, w1, w2, w3) := sipRound (v0, v1, v2, Nat.xor v3 m)
  (Nat.xor w0 m, w1, w2, w3)

/-- Process the byte stream: full 8-byte little-endian words, then the padded
final word carrying the total length modulo 256 in its top byte, then the
three finalization rounds, yielding `v0 ^ v1 ^ v2 ^ v3`. -/
def sipProcess (v : Nat × Nat × Nat × Nat) (msg : List Nat) (len : Nat) : Nat :=
  match msg with
  | b0 :: b1 :: b2 :: b3 :: b4 :: b5 :: b6 :: b7 :: rest =>
    sipProcess (sipCompress v (le64 [b0, b1, b2, b3, b4, b5, b6, b7])) rest len
  | rest =>
    let m := le64 rest + len % 256 * 2 ^ 56
    let (v0, v1, v2, v3) := sipCompress v m
    let (w0, w1, w2, w3) := sipRound (sipRound (sipRound (v0, v1, Nat.xor v2 255, v3)))
    Nat.xor (Nat.xor w0 w1) (Nat.xor w2 w3)

/-- UTF-8 byte encoding of one character. -/
def utf8Char (c : Char) : List Nat :=
  let n := c.toNat
  if n < 128 then [n]
  else if n < 2048 then [192 + n / 64, 128 + n % 64]
  else if n < 65536 then [224 + n / 4096, 128 + n / 64 % 64, 128 + n % 64]
  else [240 + n / 262144, 128 + n / 4096 % 64, 128 + n / 64 % 64, 128 + n % 64]

/-- UTF-8 byte stream of a character list. -/
def utf8Bytes (cs : List Char) : List Nat := cs.flatMap utf8Char

/-- Model of `simple_hash` (captcha.rs lines 431–438): `DefaultHasher` — SipHash-1-3
with zero keys over the string's UTF-8 bytes followed by the 0xff marker that
`str`'s `Hash` instance appends — formatted as lowercase hexadecimal. -/
def simple_hash (s : String) : String :=
  let stream := utf8Bytes s.toList ++ [255]
  let h := sipProcess
    (0x736f6d6570736575, 0x646f72616e646f6d, 0x6c7967656e657261, 0x7465646279746573)
    stream stream.length
  String.mk (Nat.toDigits 16 h)

/-- The fold underlying `captcha_img.split(',').last()` (captcha.rs line 34):
scanning left to right, a comma resets the collected component, so the result
is the text after the last comma (the whole text when no comma occurs).
`str::split` always yields at least one component, so the source's `?` on
`last()` never fires and the extraction is total. -/
def after_last_comma (cs : List Char) : List Char :=
  cs.foldl (fun acc c => if c = ',' then [] else acc ++ [c]) []

/-- The base64 payload `solve_b64` extracts from its input. -/
def extract_b64 (s : String) : String := String.mk (after_last_comma s.toList)

/-- The mutable state `solve_b64` touches: the one-shot load flag
(`INITIALIZED`), the in-memory cache (`CAPTCHA_CACHE`), and the content of
the persisted `captcha_cache.json` (`none`: absent or unparseable file). -/
structure SolverState where
  inited : Bool
  cache : List (String × String)
  cacheFile : Option (List (String × String))
deriving DecidableEq

/-- The first-use cache load of `solve_b64` (captcha.rs lines 21–31): once
per process, replace the in-memory cache with the persisted mapping when one
exists and parses; the file itself is only read, never written. -/
def init_cache (st : SolverState) : SolverState :=
  if st.inited then st
  else
    { st with
      inited := true
      cache := match st.cacheFile with
        | some m => m
        | none => st.cache }

/-- Model of `solve_b64` (captcha.rs lines 19–77).  `pipeline` abstracts lines 46–58:
base64-decode the payload, load the image, run
`preprocess_specific_captcha` and `detect_captcha_text`; `none` is any
failure of that chain.  On a pipeline success the text is inserted into the
cache and the whole cache is flushed to the persisted file exactly when the
post-insert size is a multiple of 5.  (The best-effort debug and training
writes of lines 55 and 69–71 touch neither the cache nor its file.) -/
def solve_b64 (pipeline : String → Option String) (input : String)
    (st : SolverState) : Option String × SolverState :=
  let st1 := init_cache st
  let base64_str := extract_b64 input
  let img_hash := simple_hash base64_str
  match st1.cache.lookup img_hash with
  | some cached_solution => (some cached_solution, st1)
  | none =>
    match pipeline base64_str with
    | some text =>
      let cache1 := assocInsert st1.cache img_hash text
      let st2 := { st1 with cache := cache1 }
      let st3 :=
        if cache1.length % 5 = 0 then { st2 with cacheFile := some cache1 }
        else st2
      (some text, st3)
    | none => (none, st1)

/-- The states one process can pass through: any sequence of `solve_b64`
calls with the given pipeline from the given start state. -/
inductive Reach (pipeline : String → Option String) : SolverState → SolverState → Prop
  | refl (st : SolverState) : Reach pipeline st st
  | step (st st' : SolverState) (input : String) :
      Reach pipeline st st' → Reach pipeline st (solve_b64 pipeline input st').2

/-- Validity of every text stored in a cache snapshot. -/
def CacheOK (c : List (String × String)) : Prop :=
  ∀ p ∈ c, isValidText p.2.toList = true

/-- A 30×10 test image with three 4-column-wide dark bars: columns 2–5,
10–13 and 18–21. -/
def img3bars : GrayImage :=
  ⟨30, 10, fun x _y =>
    if (2 ≤ x ∧ x ≤ 5) ∨ (10 ≤ x ∧ x ≤ 13) ∨ (18 ≤ x ∧ x ≤ 21) then 0 else 255⟩

theorem preprocess_rotation_foldl_mem (img : GrayImage)
    (l : List Int) (b : GrayImage × ℚ)
    (hb : b.1 = img ∨ b.1 = rotate90 img) :
    (l.foldl (fun b _angle =>
      let rotated := rotate90 img
      let score := evaluate_captcha_clarity rotated
      if b.2 < score then (rotated, score) else b) b).1 = img ∨
    (l.foldl (fun b _angle =>
      let rotated := rotate90 img
      let score := evaluate_captcha_clarity rotated
      if b.2 < score then (rotated, score) else b) b).1 = rotate90 img := by
  induction l generalizing b with
  | nil => exact hb
  | cons a t ih =>
    simp only [List.foldl_cons]
    apply ih
    by_cases h : b.2 < evaluate_captcha_clarity (rotate90 img)
    · simp [h]
    · simpa [h] using hb

/-- C1: For every decoded input image, the rotation-correction step of
`preprocess_specific_captcha` only ever produces the resized image itself or
its fixed quarter-turn `rotate90`: every candidate the loop renders is the
same `rotate90(&sized)` image, independent of the candidate's angle, so no
candidate is produced by a rotation by its own angle. -/
theorem preprocess_rotation_fixed_transform (img : GrayImage) :
    preprocess_rotation img = img ∨ preprocess_rotation img = rotate90 img := by
  unfold preprocess_rotation
  exact preprocess_rotation_foldl_mem img angles _ (Or.inl rfl)

theorem noise_foldl_const (img : GrayImage) (l : List (Nat × Nat)) (out : GrayImage)
    (h : ∀ p ∈ l, ¬ same_neighbors img p.1 p.2 < 2) :
    l.foldl (fun output p =>
      let (x, y) := p
      if same_neighbors img x y < 2 then
        put_pixel output x y (255 - img.pixel x y)
      else output) out = out := by
  induction l generalizing out with
  | nil => rfl
  | cons p t ih =>
    obtain ⟨px, py⟩ := p
    simp only [List.foldl_cons]
    rw [if_neg (h (px, py) (List.mem_cons_self _ _))]
    exact ih out fun q hq => h q (List.mem_cons_of_mem _ hq)

theorem noise_neighbor_step_mono (img : GrayImage) (x y n : Nat) (d : Int × Int) :
    n ≤ noise_neighbor_step img x y n d := by
  obtain ⟨dy, dx⟩ := d
  simp only [noise_neighbor_step]
  split_ifs <;> omega

theorem noise_foldl_mono (img : GrayImage) (x y : Nat) (l : List (Int × Int)) (n : Nat) :
    n ≤ l.foldl (noise_neighbor_step img x y) n := by
  induction l generalizing n with
  | nil => exact Nat.le_refl n
  | cons d t ih =>
    exact Nat.le_trans (noise_neighbor_step_mono img x y n d) (ih _)

theorem pixel_polarity_iff (img : GrayImage) (h : UniformPolarity img)
    (a b a' b' : Nat) (ha : a < img.width) (hb : b < img.height)
    (ha' : a' < img.width) (hb' : b' < img.height) :
    (127 < img.pixel a b ↔ 127 < img.pixel a' b') := by
  cases h with
  | inl h => exact iff_of_true (h a ha b hb) (h a' ha' b' hb')
  | inr h =>
    exact iff_of_false (Nat.not_lt.2 (h a ha b hb)) (Nat.not_lt.2 (h a' ha' b' hb'))

theorem noise_neighbor_step_incr (img : GrayImage) (x y n : Nat) (dy dx : Int)
    (hne : ¬(dx = 0 ∧ dy = 0))
    (hbd : 0 ≤ (x : Int) + dx ∧ (x : Int) + dx < (img.width : Int) ∧
      0 ≤ (y : Int) + dy ∧ (y : Int) + dy < (img.height : Int))
    (hpol : (127 < img.pixel ((x : Int) + dx).toNat ((y : Int) + dy).toNat ↔
      127 < img.pixel x y)) :
    noise_neighbor_step img x y n (dy, dx) = n + 1 := by
  simp only [noise_neighbor_step]
  rw [if_neg hne, if_pos hbd, if_pos hpol]

theorem same_neighbors_uniform_ge_two (img : GrayImage) (x y : Nat)
    (h : UniformPolarity img) (hx1 : 1 ≤ x) (hx2 : x < img.width - 1)
    (hy1 : 1 ≤ y) (hy2 : y < img.height - 1) :
    2 ≤ same_neighbors img x y := by
  have hoff : neighbor_offsets =
      [(-1, -1), (-1, 0), (-1, 1), (0, -1), (0, 0), (0, 1), (1, -1), (1, 0), (1, 1)] := by
    decide
  have hxw : x < img.width := by omega
  have hyh : y < img.height := by omega
  have e1 : noise_neighbor_step img x y 0 (-1, -1) = 1 := by
    refine noise_neighbor_step_incr img x y 0 (-1) (-1) (by simp)
      ⟨by omega, by omega, by omega, by omega⟩ ?_
    exact pixel_polarity_iff img h _ _ x y (by omega) (by omega) hxw hyh
  have e2 : noise_neighbor_step img x y 1 (-1, 0) = 2 := by
    refine noise_neighbor_step_incr img x y 1 (-1) 0 (by simp)
      ⟨by omega, by omega, by omega, by omega⟩ ?_
    exact pixel_polarity_iff img h _ _ x y (by omega) (by omega) hxw hyh
  unfold same_neighbors
  rw [hoff, List.foldl_cons, List.foldl_cons, e1, e2]
  exact noise_foldl_mono img x y _ 2

theorem noise_foldl_pixel (img : GrayImage) (l : List (Nat × Nat)) (out : GrayImage)
    (a b : Nat) :
    (l.foldl (fun output p =>
      let (x, y) := p
      if same_neighbors img x y < 2 then
        put_pixel output x y (255 - img.pixel x y)
      else output) out).pixel a b =
    if (a, b) ∈ l ∧ same_neighbors img a b < 2 then 255 - img.pixel a b
    else out.pixel a b := by
  induction l generalizing out with
  | nil => simp
  | cons p t ih =>
    obtain ⟨px, py⟩ := p
    simp only [List.foldl_cons]
    rw [ih]
    by_cases h1 : (a, b) ∈ t ∧ same_neighbors img a b < 2
    · rw [if_pos h1, if_pos ⟨List.mem_cons_of_mem _ h1.1, h1.2⟩]
    · rw [if_neg h1]
      by_cases hpq : a = px ∧ b = py
      · obtain ⟨hpa, hpb⟩ := hpq
        subst hpa; subst hpb
        by_cases hc : same_neighbors img a b < 2
        · rw [if_pos hc, if_pos ⟨List.mem_cons_self _ _, hc⟩]
          simp [put_pixel]
        · rw [if_neg hc, if_neg (fun hk => hc hk.2)]
      · by_cases hc : same_neighbors img px py < 2
        · rw [if_pos hc]
          have hne : ¬((a, b) ∈ (px, py) :: t ∧ same_neighbors img a b < 2) := by
            rintro ⟨hm, hcab⟩
            rcases List.mem_cons.1 hm with he | ht
            · exact hpq ⟨congrArg Prod.fst he, congrArg Prod.snd he⟩
            · exact h1 ⟨ht, hcab⟩
          rw [if_neg hne]
          simp only [put_pixel]
          rw [if_neg hpq]
        · rw [if_neg hc]
          have hne : ¬((a, b) ∈ (px, py) :: t ∧ same_neighbors img a b < 2) := by
            rintro ⟨hm, hcab⟩
            rcases List.mem_cons.1 hm with he | ht
            · exact hpq ⟨congrArg Prod.fst he, congrArg Prod.snd he⟩
            · exact h1 ⟨ht, hcab⟩
          rw [if_neg hne]

theorem mem_interior_positions (img : GrayImage) (x y : Nat) :
    (x, y) ∈ interior_positions img ↔
      1 ≤ x ∧ x < img.width - 1 ∧ 1 ≤ y ∧ y < img.height - 1 := by
  simp only [interior_positions, List.mem_flatMap, List.mem_map, List.mem_range'_1,
    Prod.mk.injEq]
  constructor
  · rintro ⟨b, hb, a, ha, hax, hby⟩
    subst hax; subst hby
    omega
  · rintro ⟨h1, h2, h3, h4⟩
    exact ⟨y, by omega, x, by omega, rfl, rfl⟩

/-- C9: `remove_noise` on an image whose pixels all lie on the same side of
the mid-level split returns its input unchanged; and in general each output
pixel is decided purely against the unmodified input snapshot (interior
pixel with fewer than 2 same-polarity neighbours in the input: inverted;
otherwise: copied), so corrections made within the pass never influence
other pixels' neighbour counts. -/
theorem remove_noise_snapshot_semantics (img : GrayImage) :
    (UniformPolarity img → remove_noise img = img) ∧
    (∀ x y, (remove_noise img).pixel x y = noise_decision img x y) := by
  constructor
  · intro h
    unfold remove_noise
    apply noise_foldl_const
    intro p hp
    obtain ⟨px, py⟩ := p
    show ¬ same_neighbors img px py < 2
    have hb := (mem_interior_positions img px py).1 hp
    have := same_neighbors_uniform_ge_two img px py h hb.1 hb.2.1 hb.2.2.1 hb.2.2.2
    omega
  · intro x y
    unfold remove_noise
    rw [noise_foldl_pixel]
    simp only [mem_interior_positions, noise_decision]

/-- Witness for C9: a 3×3 image uniformly at intensity 200 is returned
unchanged by `remove_noise`. -/
theorem remove_noise_snapshot_semantics_witness :
    remove_noise ⟨3, 3, fun _ _ => 200⟩ = ⟨3, 3, fun _ _ => 200⟩ :=
  (remove_noise_snapshot_semantics ⟨3, 3, fun _ _ => 200⟩).1 (Or.inl (by decide))

/-- C3: `detect_captcha_text` returns no result whenever the raw boundary
count lies outside [3, 8], and otherwise proceeds to the merging, recognition
and validation stage. -/
theorem detect_boundary_count_gate (identify : GrayImage → Option Char)
    (img : GrayImage) :
    detect_captcha_text identify img =
      if 3 ≤ (find_char_boundaries img).length ∧ (find_char_boundaries img).length ≤ 8
      then merge_and_recognize identify img
      else none := by
  unfold detect_captcha_text merge_and_recognize
  by_cases h : (find_char_boundaries img).length < 3 ∨ 8 < (find_char_boundaries img).length
  · have hc : ¬(3 ≤ (find_char_boundaries img).length ∧
        (find_char_boundaries img).length ≤ 8) := by omega
    rw [if_pos h, if_neg hc]
  · have hc : 3 ≤ (find_char_boundaries img).length ∧
        (find_char_boundaries img).length ≤ 8 := by omega
    rw [if_neg h, if_pos hc]

/-- C5: once the boundary-count gate has passed, `detect_captcha_text`
returns the assembled candidate text exactly when that text has at least 3
characters, all ASCII alphanumeric or the placeholder; a candidate failing
the check makes the whole detection return no result. -/
theorem detect_final_validation (identify : GrayImage → Option Char) (img : GrayImage)
    (h3 : 3 ≤ (find_char_boundaries img).length)
    (h8 : (find_char_boundaries img).length ≤ 8) :
    (detect_captcha_text identify img =
        some (recognize_regions identify img (merge_boundaries (find_char_boundaries img))) ↔
      isValidText (recognize_regions identify img (merge_boundaries (find_char_boundaries img))) = true) ∧
    (isValidText (recognize_regions identify img (merge_boundaries (find_char_boundaries img))) = false →
      detect_captcha_text identify img = none) := by
  have hgate : ¬((find_char_boundaries img).length < 3 ∨
      8 < (find_char_boundaries img).length) := by omega
  simp only [detect_captcha_text, if_neg hgate]
  constructor
  · by_cases hv : isValidText (recognize_regions identify img
        (merge_boundaries (find_char_boundaries img))) = true
    · rw [if_pos hv]
      exact ⟨fun _ => hv, fun _ => rfl⟩
    · rw [if_neg hv]
      exact iff_of_false (by simp) hv
  · intro hf
    rw [if_neg (by simp [hf])]

/-- Witness for C5: on the three-bar test image with a recognizer answering
the non-alphanumeric character, the assembled candidate fails validation and
detection returns no result. -/
theorem detect_final_validation_witness :
    (detect_captcha_text (fun _ => some '!') img3bars =
        some (recognize_regions (fun _ => some '!') img3bars
          (merge_boundaries (find_char_boundaries img3bars))) ↔
      isValidText (recognize_regions (fun _ => some '!') img3bars
          (merge_boundaries (find_char_boundaries img3bars))) = true) ∧
    (isValidText (recognize_regions (fun _ => some '!') img3bars
          (merge_boundaries (find_char_boundaries img3bars))) = false →
      detect_captcha_text (fun _ => some '!') img3bars = none) :=
  detect_final_validation (fun _ => some '!') img3bars (by decide) (by decide)

theorem count_step_sum (img : GrayImage) (y x : Nat) (acc : RegionCounts) :
    (count_step img y acc x).top + (count_step img y acc x).middle +
      (count_step img y acc x).bottom =
    acc.top + acc.middle + acc.bottom + (if img.pixel x y < 128 then 1 else 0) := by
  unfold count_step
  split_ifs <;> simp <;> omega

theorem row_fold_sum (img : GrayImage) (y : Nat) (l : List Nat) (acc : RegionCounts) :
    (l.foldl (count_step img y) acc).top + (l.foldl (count_step img y) acc).middle +
      (l.foldl (count_step img y) acc).bottom =
    acc.top + acc.middle + acc.bottom + l.countP (fun x => img.pixel x y < 128) := by
  induction l generalizing acc with
  | nil => simp
  | cons x t ih =>
    simp only [List.foldl_cons, List.countP_cons]
    rw [ih]
    have h := count_step_sum img y x acc
    by_cases hp : img.pixel x y < 128
    · rw [if_pos hp] at h
      rw [if_pos (decide_eq_true hp)]
      omega
    · rw [if_neg hp] at h
      rw [if_neg (fun hq => hp (of_decide_eq_true hq))]
      omega

theorem outer_fold_sum (img : GrayImage) (rows : List Nat) (acc : RegionCounts) :
    (rows.foldl (fun acc y => (List.range img.width).foldl (count_step img y) acc) acc).top +
      (rows.foldl (fun acc y => (List.range img.width).foldl (count_step img y) acc) acc).middle +
      (rows.foldl (fun acc y => (List.range img.width).foldl (count_step img y) acc) acc).bottom =
    acc.top + acc.middle + acc.bottom +
      (rows.map (fun y => (List.range img.width).countP (fun x => img.pixel x y < 128))).sum := by
  induction rows generalizing acc with
  | nil => simp
  | cons y t ih =>
    simp only [List.foldl_cons, List.map_cons, List.sum_cons]
    rw [ih]
    have h := row_fold_sum img y (List.range img.width) acc
    omega

theorem region_counts_sum (img : GrayImage) :
    (region_counts img).top + (region_counts img).middle + (region_counts img).bottom =
    ((List.range img.height).map
      (fun y => (List.range img.width).countP (fun x => img.pixel x y < 128))).sum := by
  unfold region_counts
  rw [outer_fold_sum]
  simp

/-- C7 (amended): whenever a region holds at least one foreground (dark)
pixel, `estimate_character_by_position` applies its ordered distribution
rules and returns some character, ending in the default character when no
distinctive rule matches. -/
theorem estimate_some_of_foreground (img : GrayImage)
    (h : ∃ x, x < img.width ∧ ∃ y, y < img.height ∧ img.pixel x y < 128) :
    (estimate_character_by_position img).isSome = true := by
  obtain ⟨x0, hx, y0, hy, hp⟩ := h
  have htot : ¬((region_counts img).top + (region_counts img).middle +
      (region_counts img).bottom = 0) := by
    have hsum := region_counts_sum img
    have hrow : 0 < (List.range img.width).countP (fun x => img.pixel x y0 < 128) := by
      rw [List.countP_pos_iff]
      exact ⟨x0, List.mem_range.2 hx, decide_eq_true hp⟩
    have hmem : (List.range img.width).countP (fun x => img.pixel x y0 < 128) ∈
        (List.range img.height).map
          (fun y => (List.range img.width).countP (fun x => img.pixel x y < 128)) :=
      List.mem_map.2 ⟨y0, List.mem_range.2 hy, rfl⟩
    have hle := List.single_le_sum (l := (List.range img.height).map
      (fun y => (List.range img.width).countP (fun x => img.pixel x y < 128)))
      (fun a _ => Nat.zero_le a) _ hmem
    omega
  simp only [estimate_character_by_position]
  rw [if_neg htot]
  split_ifs <;> rfl

/-- Witness for C7's amended statement: a 2×2 all-dark region gets a label. -/
theorem estimate_some_of_foreground_witness :
    (estimate_character_by_position ⟨2, 2, fun _ _ => 0⟩).isSome = true :=
  estimate_some_of_foreground ⟨2, 2, fun _ _ => 0⟩
    ⟨0, by decide, 0, by decide, by decide⟩

/-- Counterexample to C7 as stated: on a region with no foreground pixel at
all (a 4×6 all-white crop), the fallback heuristic returns no character
rather than some character. -/
theorem estimate_blank_region_none_cex :
    estimate_character_by_position ⟨4, 6, fun _ _ => 255⟩ = none := by decide

theorem lookup_append_single {α β : Type} [DecidableEq α] (l : List (α × β)) (k : α) (v : β)
    (h : l.lookup k = none) : (l ++ [(k, v)]).lookup k = some v := by
  induction l with
  | nil => simp [List.lookup]
  | cons p t ih =>
    obtain ⟨a, b⟩ := p
    rw [List.lookup_cons] at h
    rw [List.cons_append, List.lookup_cons]
    cases hk : k == a with
    | true => rw [hk] at h; cases h
    | false => rw [hk] at h; exact ih h

theorem lookup_map_replace {α β : Type} [DecidableEq α] (l : List (α × β)) (k : α) (v : β)
    (h : (l.lookup k).isSome = true) :
    (l.map (fun p => if p.1 = k then (k, v) else p)).lookup k = some v := by
  induction l with
  | nil => simp [List.lookup] at h
  | cons p t ih =>
    obtain ⟨a, b⟩ := p
    rw [List.lookup_cons] at h
    by_cases hak : a = k
    · subst hak
      simp only [List.map_cons, if_pos rfl]
      rw [List.lookup_cons]
      simp
    · have hk : (k == a) = false := by
        simp only [beq_eq_false_iff_ne, ne_eq]
        exact fun he => hak he.symm
      rw [hk] at h
      simp only [List.map_cons, if_neg hak]
      rw [List.lookup_cons, hk]
      exact ih h

theorem lookup_assocInsert_self {α β : Type} [DecidableEq α] (l : List (α × β))
    (k : α) (v : β) : (assocInsert l k v).lookup k = some v := by
  unfold assocInsert
  by_cases h : (l.lookup k).isSome = true
  · rw [if_pos h]
    exact lookup_map_replace l k v h
  · rw [if_neg h]
    refine lookup_append_single l k v ?_
    cases he : l.lookup k with
    | none => rfl
    | some w => rw [he] at h; simp at h

theorem lookup_append_single_ne {α β : Type} [DecidableEq α] (l : List (α × β))
    (k c : α) (v : β) (hck : (c == k) = false) :
    (l ++ [(k, v)]).lookup c = l.lookup c := by
  induction l with
  | nil => simp [List.lookup, hck]
  | cons p t ih =>
    obtain ⟨a, b⟩ := p
    rw [List.cons_append, List.lookup_cons, List.lookup_cons]
    cases hca : c == a with
    | true => rfl
    | false => exact ih

theorem lookup_map_replace_ne {α β : Type} [DecidableEq α] (l : List (α × β))
    (k c : α) (v : β) (hck : (c == k) = false) :
    (l.map (fun p => if p.1 = k then (k, v) else p)).lookup c = l.lookup c := by
  induction l with
  | nil => rfl
  | cons p t ih =>
    obtain ⟨a, b⟩ := p
    simp only [List.map_cons]
    by_cases hak : (a, b).1 = k
    · rw [if_pos hak]
      rw [List.lookup_cons, List.lookup_cons]
      have hca : (c == a) = false := by
        have hk : a = k := hak
        rw [hk]
        exact hck
      rw [hck, hca]
      exact ih
    · rw [if_neg hak]
      rw [List.lookup_cons, List.lookup_cons]
      cases hca : c == a with
      | true => rfl
      | false => exact ih

theorem lookup_assocInsert_ne {α β : Type} [DecidableEq α] (l : List (α × β))
    (k c : α) (v : β) (h : c ≠ k) :
    (assocInsert l k v).lookup c = l.lookup c := by
  have hck : (c == k) = false := by simp [beq_eq_false_iff_ne, h]
  unfold assocInsert
  by_cases hs : (l.lookup k).isSome = true
  · rw [if_pos hs]
    exact lookup_map_replace_ne l k c v hck
  · rw [if_neg hs]
    exact lookup_append_single_ne l k c v hck

theorem lookup_fold_const {α β : Type} [DecidableEq α] (l : List α)
    (acc : List (α × β)) (v : β) (c : α)
    (h : c ∈ l ∨ acc.lookup c = some v) :
    (l.foldl (fun ts k => assocInsert ts k v) acc).lookup c = some v := by
  induction l generalizing acc with
  | nil =>
    rcases h with hm | hl
    · cases hm
    · exact hl
  | cons k t ih =>
    simp only [List.foldl_cons]
    apply ih
    by_cases hck : c = k
    · subst hck
      exact Or.inr (lookup_assocInsert_self acc c v)
    · rcases h with hm | hl
      · rcases List.mem_cons.1 hm with he | ht
        · exact absurd he hck
        · exact Or.inl ht
      · exact Or.inr ((lookup_assocInsert_ne acc k c v hck).trans hl)

theorem alnum_char_mem (c : Char) (h : is_ascii_alphanumeric c = true) :
    c ∈ alnum_chars := by
  have hb : 48 ≤ c.toNat ∧ c.toNat ≤ 57 ∨ 65 ≤ c.toNat ∧ c.toNat ≤ 90 ∨
      97 ≤ c.toNat ∧ c.toNat ≤ 122 := by
    simp only [is_ascii_alphanumeric, Bool.or_eq_true, Bool.and_eq_true,
      decide_eq_true_eq] at h
    omega
  have haux : ∀ n < 123,
      (48 ≤ n ∧ n ≤ 57 ∨ 65 ≤ n ∧ n ≤ 90 ∨ 97 ≤ n ∧ n ≤ 122) →
      Char.ofNat n ∈ alnum_chars := by decide
  have := haux c.toNat (by omega) hb
  rwa [Char.ofNat_toNat] at this

/-- C8: when the template directory is absent, `load_templates` falls back to
an in-memory table mapping every ASCII alphanumeric character to the blank
20×30 template, and the resulting table is not empty. -/
theorem load_templates_missing_dir_fallback :
    (∀ c : Char, is_ascii_alphanumeric c = true →
      (load_templates none).lookup c = some blank_template) ∧
    load_templates none ≠ [] := by
  have hall : ∀ c : Char, is_ascii_alphanumeric c = true →
      (load_templates none).lookup c = some blank_template := by
    intro c h
    have hm := alnum_char_mem c h
    have hred : load_templates none =
        alnum_chars.foldl (fun ts c => assocInsert ts c blank_template) [] := rfl
    rw [hred]
    exact lookup_fold_const alnum_chars [] blank_template c (Or.inl hm)
  refine ⟨hall, ?_⟩
  intro hcontra
  have hA := hall 'A' (by decide)
  rw [hcontra] at hA
  simp [List.lookup] at hA

/-- Witness for C8: the fallback table resolves the character A to the blank
template, and the table is non-empty. -/
theorem load_templates_missing_dir_fallback_witness :
    (load_templates none).lookup 'A' = some blank_template ∧
    load_templates none ≠ [] :=
  ⟨load_templates_missing_dir_fallback.1 'A' (by decide),
   load_templates_missing_dir_fallback.2⟩

theorem init_cache_inited (st : SolverState) : (init_cache st).inited = true := by
  unfold init_cache
  by_cases h : st.inited = true
  · rw [if_pos h]
    exact h
  · rw [if_neg h]

theorem init_cache_of_inited (st : SolverState) (h : st.inited = true) :
    init_cache st = st := by
  unfold init_cache
  rw [if_pos h]

theorem init_cache_cacheFile (st : SolverState) :
    (init_cache st).cacheFile = st.cacheFile := by
  unfold init_cache
  by_cases h : st.inited = true
  · rw [if_pos h]
  · rw [if_neg h]

theorem solve_b64_hit (pipeline : String → Option String) (input : String)
    (st : SolverState) (v : String)
    (hl : (init_cache st).cache.lookup (simple_hash (extract_b64 input)) = some v) :
    solve_b64 pipeline input st = (some v, init_cache st) := by
  simp only [solve_b64]
  rw [hl]

theorem solve_b64_fail (pipeline : String → Option String) (input : String)
    (st : SolverState)
    (hl : (init_cache st).cache.lookup (simple_hash (extract_b64 input)) = none)
    (hp : pipeline (extract_b64 input) = none) :
    solve_b64 pipeline input st = (none, init_cache st) := by
  simp only [solve_b64]
  rw [hl, hp]

theorem solve_b64_insert (pipeline : String → Option String) (input : String)
    (st : SolverState) (text : String)
    (hl : (init_cache st).cache.lookup (simple_hash (extract_b64 input)) = none)
    (hp : pipeline (extract_b64 input) = some text) :
    solve_b64 pipeline input st =
      (some text,
        if (assocInsert (init_cache st).cache (simple_hash (extract_b64 input))
            text).length % 5 = 0 then
          { init_cache st with
            cache := assocInsert (init_cache st).cache
              (simple_hash (extract_b64 input)) text
            cacheFile := some (assocInsert (init_cache st).cache
              (simple_hash (extract_b64 input)) text) }
        else
          { init_cache st with
            cache := assocInsert (init_cache st).cache
              (simple_hash (extract_b64 input)) text }) := by
  simp only [solve_b64]
  rw [hl, hp]

/-- C4: one `solve_b64` call changes the cache and the persisted file exactly
as follows: the first-use load never touches the file; a cache hit and a
failed solve leave both the cache and the file as the load left them; a
pipeline success inserts the (fingerprint, text) entry, and rewrites the file
to the whole post-insert cache precisely when the post-insert size is a
multiple of 5, leaving the file unchanged otherwise. -/
theorem solve_b64_flush_cadence (pipeline : String → Option String) (input : String)
    (st : SolverState) :
    (init_cache st).cacheFile = st.cacheFile ∧
    (solve_b64 pipeline input st).2 =
      (match (init_cache st).cache.lookup (simple_hash (extract_b64 input)) with
       | some _ => init_cache st
       | none =>
         match pipeline (extract_b64 input) with
         | none => init_cache st
         | some text =>
           let cache1 := assocInsert (init_cache st).cache
             (simple_hash (extract_b64 input)) text
           if cache1.length % 5 = 0 then
             { init_cache st with cache := cache1, cacheFile := some cache1 }
           else { init_cache st with cache := cache1 }) := by
  refine ⟨init_cache_cacheFile st, ?_⟩
  cases hl : (init_cache st).cache.lookup (simple_hash (extract_b64 input)) with
  | some v => rw [solve_b64_hit pipeline input st v hl]
  | none =>
    cases hp : pipeline (extract_b64 input) with
    | none => rw [solve_b64_fail pipeline input st hl hp]
    | some text => rw [solve_b64_insert pipeline input st text hl hp]

theorem solve_b64_state_inited (pipeline : String → Option String) (input : String)
    (st : SolverState) : ((solve_b64 pipeline input st).2).inited = true := by
  cases hl : (init_cache st).cache.lookup (simple_hash (extract_b64 input)) with
  | some v =>
    rw [solve_b64_hit pipeline input st v hl]
    exact init_cache_inited st
  | none =>
    cases hp : pipeline (extract_b64 input) with
    | none =>
      rw [solve_b64_fail pipeline input st hl hp]
      exact init_cache_inited st
    | some text =>
      rw [solve_b64_insert pipeline input st text hl hp]
      by_cases hm : (assocInsert (init_cache st).cache
          (simple_hash (extract_b64 input)) text).length % 5 = 0
      · rw [if_pos hm]
        exact init_cache_inited st
      · rw [if_neg hm]
        exact init_cache_inited st

theorem solve_b64_state_cache_lookup (pipeline : String → Option String)
    (input : String) (st : SolverState) (t : String)
    (h : (solve_b64 pipeline input st).1 = some t) :
    ((solve_b64 pipeline input st).2).cache.lookup
      (simple_hash (extract_b64 input)) = some t := by
  cases hl : (init_cache st).cache.lookup (simple_hash (extract_b64 input)) with
  | some v =>
    rw [solve_b64_hit pipeline input st v hl] at h ⊢
    rw [hl]
    cases h
    rfl
  | none =>
    cases hp : pipeline (extract_b64 input) with
    | none =>
      rw [solve_b64_fail pipeline input st hl hp] at h
      cases h
    | some text =>
      rw [solve_b64_insert pipeline input st text hl hp] at h ⊢
      have ht : text = t := by
        cases h
        rfl
      subst ht
      by_cases hm : (assocInsert (init_cache st).cache
          (simple_hash (extract_b64 input)) text).length % 5 = 0
      · rw [if_pos hm]
        exact lookup_assocInsert_self _ _ _
      · rw [if_neg hm]
        exact lookup_assocInsert_self _ _ _

/-- C6: a second `solve_b64` call on the same input yields the same result
as the first; moreover, whenever the first call returned some text, the
second call returns that text with the state unchanged for *every* pipeline,
i.e. it is answered purely by the fingerprint lookup in the cache and the
decoding/preprocessing/segmentation/recognition stage is never consulted. -/
theorem solve_b64_idempotent (pipeline : String → Option String) (input : String)
    (st : SolverState) :
    ((solve_b64 pipeline input ((solve_b64 pipeline input st).2)).1 =
      (solve_b64 pipeline input st).1) ∧
    (∀ t, (solve_b64 pipeline input st).1 = some t →
      ∀ q : String → Option String,
        solve_b64 q input ((solve_b64 pipeline input st).2) =
          (some t, (solve_b64 pipeline input st).2)) := by
  have hsecond : ∀ t, (solve_b64 pipeline input st).1 = some t →
      ∀ q : String → Option String,
        solve_b64 q input ((solve_b64 pipeline input st).2) =
          (some t, (solve_b64 pipeline input st).2) := by
    intro t ht q
    have hinit : init_cache ((solve_b64 pipeline input st).2) =
        (solve_b64 pipeline input st).2 :=
      init_cache_of_inited _ (solve_b64_state_inited pipeline input st)
    have hlook : (init_cache ((solve_b64 pipeline input st).2)).cache.lookup
        (simple_hash (extract_b64 input)) = some t := by
      rw [hinit]
      exact solve_b64_state_cache_lookup pipeline input st t ht
    rw [solve_b64_hit q input _ t hlook, hinit]
  refine ⟨?_, hsecond⟩
  cases h1 : (solve_b64 pipeline input st).1 with
  | some t =>
    rw [hsecond t h1 pipeline]
  | none =>
    have hl : (init_cache st).cache.lookup (simple_hash (extract_b64 input)) = none := by
      cases hl : (init_cache st).cache.lookup (simple_hash (extract_b64 input)) with
      | none => rfl
      | some v => rw [solve_b64_hit pipeline input st v hl] at h1; cases h1
    have hp : pipeline (extract_b64 input) = none := by
      cases hp : pipeline (extract_b64 input) with
      | none => rfl
      | some text => rw [solve_b64_insert pipeline input st text hl hp] at h1; cases h1
    have hfirst := solve_b64_fail pipeline input st hl hp
    rw [hfirst]
    have hinit : init_cache (init_cache st) = init_cache st :=
      init_cache_of_inited _ (init_cache_inited st)
    have hl2 : (init_cache (init_cache st)).cache.lookup
        (simple_hash (extract_b64 input)) = none := by
      rw [hinit]
      exact hl
    rw [solve_b64_fail pipeline input (init_cache st) hl2 hp]

/-- Witness for C6: with a pipeline that recognizes "ABC", the first call on
input "x" from the empty uninitialized state returns some text, and a second
call with a pipeline that always fails still returns that text from cache
with the state unchanged. -/
theorem solve_b64_idempotent_witness :
    solve_b64 (fun _ => none) "x"
        ((solve_b64 (fun _ => some "ABC") "x" ⟨false, [], none⟩).2) =
      (some "ABC", (solve_b64 (fun _ => some "ABC") "x" ⟨false, [], none⟩).2) :=
  (solve_b64_idempotent (fun _ => some "ABC") "x" ⟨false, [], none⟩).2
    "ABC" (by decide) (fun _ => none)

theorem cacheOK_assocInsert (c : List (String × String)) (k v : String)
    (hc : CacheOK c) (hv : isValidText v.toList = true) :
    CacheOK (assocInsert c k v) := by
  intro p hp
  unfold assocInsert at hp
  by_cases hs : (c.lookup k).isSome = true
  · rw [if_pos hs] at hp
    obtain ⟨q, hq, hfq⟩ := List.mem_map.1 hp
    by_cases hqk : q.1 = k
    · rw [← hfq, if_pos hqk]
      exact hv
    · rw [← hfq, if_neg hqk]
      exact hc q hq
  · rw [if_neg hs] at hp
    rcases List.mem_append.1 hp with h1 | h2
    · exact hc p h1
    · rw [List.mem_singleton.1 h2]
      exact hv

theorem init_cache_preserves_ok (s : SolverState)
    (h : CacheOK s.cache ∧ ∀ m, s.cacheFile = some m → CacheOK m) :
    CacheOK (init_cache s).cache ∧
      ∀ m, (init_cache s).cacheFile = some m → CacheOK m := by
  unfold init_cache
  by_cases hi : s.inited = true
  · rw [if_pos hi]
    exact h
  · rw [if_neg hi]
    refine ⟨?_, h.2⟩
    show CacheOK (match s.cacheFile with | some m => m | none => s.cache)
    cases hcf : s.cacheFile with
    | some m => exact h.2 m hcf
    | none => exact h.1

/-- C2 (amended): every cache entry inserted after a pipeline success passes
the validity checks, so starting from a cache whose entries are valid and a
persisted file whose entries are valid (the pipeline only ever produces
validated texts), every reachable cache state contains only valid entries.
Entries of the persisted file are themselves installed without validation at
first use, which is why the file-side hypothesis is needed. -/
theorem cache_validity_invariant_inserted
    (pipeline : String → Option String)
    (hpipe : ∀ s t, pipeline s = some t → isValidText t.toList = true)
    (st0 : SolverState) (h0 : CacheOK st0.cache)
    (hf : ∀ m, st0.cacheFile = some m → CacheOK m)
    (st : SolverState) (hr : Reach pipeline st0 st) :
    CacheOK st.cache := by
  suffices h : CacheOK st.cache ∧ ∀ m, st.cacheFile = some m → CacheOK m from h.1
  induction hr with
  | refl => exact ⟨h0, hf⟩
  | step s' input hr' ih =>
    cases hl : (init_cache s').cache.lookup (simple_hash (extract_b64 input)) with
    | some v =>
      rw [solve_b64_hit pipeline input s' v hl]
      exact init_cache_preserves_ok s' ih
    | none =>
      cases hp : pipeline (extract_b64 input) with
      | none =>
        rw [solve_b64_fail pipeline input s' hl hp]
        exact init_cache_preserves_ok s' ih
      | some text =>
        rw [solve_b64_insert pipeline input s' text hl hp]
        have hok := init_cache_preserves_ok s' ih
        have hv := hpipe _ _ hp
        have hc1 : CacheOK (assocInsert (init_cache s').cache
            (simple_hash (extract_b64 input)) text) :=
          cacheOK_assocInsert _ _ _ hok.1 hv
        by_cases hm : (assocInsert (init_cache s').cache
            (simple_hash (extract_b64 input)) text).length % 5 = 0
        · rw [if_pos hm]
          refine ⟨hc1, ?_⟩
          intro m hmfile
          have h' : some (assocInsert (init_cache s').cache
              (simple_hash (extract_b64 input)) text) = some m := hmfile
          cases h'
          exact hc1
        · rw [if_neg hm]
          exact ⟨hc1, hok.2⟩

/-- Witness for C2's amended statement: one step with a validated pipeline
from an empty cache and a persisted file holding a valid entry keeps every
cache entry valid. -/
theorem cache_validity_invariant_inserted_witness :
    CacheOK ((solve_b64 (fun _ => some "ABC") "img"
      ⟨false, [], some [("k", "XYZ")]⟩).2).cache :=
  cache_validity_invariant_inserted (fun _ => some "ABC")
    (fun _ t h => by cases h; decide)
    ⟨false, [], some [("k", "XYZ")]⟩
    (fun p hp => by cases hp)
    (fun m hm => by
      cases hm
      intro p hp
      rw [List.mem_singleton.1 hp]
      decide)
    _
    (Reach.step _ _ "img" (Reach.refl _))

/-- Counterexample to C2 as stated: with a persisted cache file holding the
entry ("k", "ab"), the first `solve_b64` call installs it into the in-memory
cache unvalidated, so the cache holds an entry whose text fails the validity
checks (length 2 < 3). -/
theorem loaded_cache_entry_invalid_cex :
    ("k", "ab") ∈ ((solve_b64 (fun _ => none) "x"
      ⟨false, [], some [("k", "ab")]⟩).2).cache ∧
    isValidText "ab".toList = false := by decide

theorem string_toList_append (a b : String) : (a ++ b).toList = a.toList ++ b.toList := by
  cases a
  cases b
  rfl

theorem string_mk_toList (s : String) : String.mk s.toList = s := by
  cases s
  rfl

theorem after_last_comma_append_comma (q s : List Char) :
    after_last_comma ((q ++ [',']) ++ s) = after_last_comma s := by
  unfold after_last_comma
  rw [List.foldl_append, List.foldl_append]
  simp

theorem foldl_comma_no_comma (l : List Char) (a : List Char) (h : ',' ∉ l) :
    l.foldl (fun acc c => if c = ',' then [] else acc ++ [c]) a = a ++ l := by
  induction l generalizing a with
  | nil => simp
  | cons c t ih =>
    have hc : ¬ c = ',' := fun he => h (he ▸ List.mem_cons_self _ _)
    simp only [List.foldl_cons, if_neg hc]
    rw [ih _ (fun hm => h (List.mem_cons_of_mem _ hm))]
    simp

theorem extract_b64_header (q s : String) :
    extract_b64 ((q ++ ",") ++ s) = extract_b64 s := by
  unfold extract_b64
  have h1 : ((q ++ ",") ++ s).toList = (q.toList ++ [',']) ++ s.toList := by
    rw [string_toList_append, string_toList_append]
    rfl
  rw [h1, after_last_comma_append_comma]

/-- C10 (amended): for every prefix ending in a comma (as a MIME data-URL
header does), `solve_b64` on the prefixed input extracts the same base64
payload, computes the same fingerprint, and behaves identically (same result,
same state) as on the bare input; an input containing no comma is used
whole.  (A comma-containing prefix that does not end in a comma can change
the extracted payload, so the claim is amended from "comma-containing" to
"ending in a comma".) -/
theorem comma_suffix_extraction_invariance (p s : String)
    (hp : ∃ q : String, p = q ++ ",")
    (pipeline : String → Option String) (st : SolverState) :
    (extract_b64 (p ++ s) = extract_b64 s ∧
     simple_hash (extract_b64 (p ++ s)) = simple_hash (extract_b64 s) ∧
     solve_b64 pipeline (p ++ s) st = solve_b64 pipeline s st) ∧
    (∀ r : String, ',' ∉ r.toList → extract_b64 r = r) := by
  obtain ⟨q, rfl⟩ := hp
  have he : extract_b64 ((q ++ ",") ++ s) = extract_b64 s := extract_b64_header q s
  refine ⟨⟨he, by rw [he], ?_⟩, ?_⟩
  · simp only [solve_b64, he]
  · intro r hr
    unfold extract_b64 after_last_comma
    rw [foldl_comma_no_comma r.toList [] hr, List.nil_append, string_mk_toList]

/-- Witness for C10's amended statement: prefixing a data-URL header to the
payload AAA changes neither the call's outcome nor the extraction, and a
comma-free input is extracted whole. -/
theorem comma_suffix_extraction_invariance_witness :
    solve_b64 (fun _ => none) ("data:image/png;base64," ++ "AAA") ⟨true, [], none⟩ =
      solve_b64 (fun _ => none) "AAA" ⟨true, [], none⟩ ∧
    extract_b64 "AAA" = "AAA" :=
  ⟨(comma_suffix_extraction_invariance "data:image/png;base64," "AAA"
      ⟨"data:image/png;base64", by decide⟩ (fun _ => none) ⟨true, [], none⟩).1.2.2,
   (comma_suffix_extraction_invariance "data:image/png;base64," "AAA"
      ⟨"data:image/png;base64", by decide⟩ (fun _ => none) ⟨true, [], none⟩).2
      "AAA" (by decide)⟩

/-- Counterexample to C10 as stated: the prefix "a,b" contains a comma but
does not end in one, and gluing it onto the input "z" changes the extracted
payload ("bz" instead of "z"), the fingerprint, and the result of
`solve_b64`. -/
theorem comma_header_dependence_cex :
    ((solve_b64 (fun s => if s = "z" then some "AAA" else none) "z"
      ⟨true, [], none⟩).1 = some "AAA") ∧
    ((solve_b64 (fun s => if s = "z" then some "AAA" else none) ("a,b" ++ "z")
      ⟨true, [], none⟩).1 = none) ∧
    simple_hash (extract_b64 ("a,b" ++ "z")) ≠ simple_hash (extract_b64 "z") := by
  decide
